import Mathlib

/-!
Shallow embedding of `src/lib/nodejsWorkerBundling/NodejsWorkerBundler.ts`
(the `NodejsWorkerBundler` class of the temporal-cdk repository) and proofs
about its workflow-reference rewriting, dependency-externalization
classification, bundle-id allocation, manifest generation, bundler resource
lifecycle, and `findPackageRoot` directory walk.

Strings are modelled as Lean `String`/`List Char`; the Node `path` module's
POSIX `dirname`, `basename` and `resolve` are embedded directly from their
Node.js semantics, since the source delegates to them.
-/

deriving instance DecidableEq for Except

namespace TemporalCdk

/-! ## Character helpers -/

/-- Character class of the regex `/[^a-z0-9]+/i` complement: with the `i`
flag, `[a-z0-9]` matches ASCII letters of either case and digits. -/
def isAlnumI (c : Char) : Bool :=
  ('a' ≤ c && c ≤ 'z') || ('A' ≤ c && c ≤ 'Z') || ('0' ≤ c && c ≤ '9')

/-- Character class `[a-z0-9-]` of the workflow-bundle externalization
pattern (no `i` flag on that regex). -/
def isWBIdChar (c : Char) : Bool :=
  ('a' ≤ c && c ≤ 'z') || ('0' ≤ c && c ≤ '9') || c == '-'

/-- Test whether `pre` is a leading segment of `l` (JS `String.startsWith`
on the character level). -/
def leadMatch : List Char → List Char → Bool
  | [], _ => true
  | _ :: _, [] => false
  | a :: as, b :: bs => a == b && leadMatch as bs

/-- JS `s.startsWith(pre)`. -/
def strStartsWith (s pre : String) : Bool := leadMatch pre.data s.data

/-! ## Decimal representation of a JS number (used by template literals) -/

/-- Decimal digit to character. -/
def digitCh (d : Nat) : Char :=
  match d with
  | 0 => '0' | 1 => '1' | 2 => '2' | 3 => '3' | 4 => '4'
  | 5 => '5' | 6 => '6' | 7 => '7' | 8 => '8' | _ => '9'

/-- Character back to decimal digit (for the round-trip proof). -/
def digitVal (c : Char) : Nat :=
  match c with
  | '0' => 0 | '1' => 1 | '2' => 2 | '3' => 3 | '4' => 4
  | '5' => 5 | '6' => 6 | '7' => 7 | '8' => 8 | '9' => 9 | _ => 0

/-- Digits of `n` in base 10, most significant first, prepended to `acc`;
fuel-structured so that it reduces in the kernel. -/
def decDigitsGo : Nat → Nat → List Char → List Char
  | 0, _, acc => acc
  | fuel + 1, n, acc =>
    if n < 10 then digitCh n :: acc
    else decDigitsGo fuel (n / 10) (digitCh (n % 10) :: acc)

/-- Decimal string of `n`, as produced by a JS template literal for a
non-negative integer. -/
def decRepr (n : Nat) : String := ⟨decDigitsGo (n + 1) n []⟩

/-- Reconstruct a number from decimal digits continuing a running value
(proof support for the injectivity of `decRepr`). -/
def digitFold (v : Nat) (l : List Char) : Nat :=
  l.foldl (fun a c => a * 10 + digitVal c) v

/-! ## POSIX path model (Node `path` module semantics) -/

/-- Scan of Node `dirname`'s main loop over the characters at index ≥ 1,
from the end: skip trailing slashes, then skip the last component; what
remains (reversed) starts at the slash preceding the last component, and
its length is Node's `end` index. -/
def dirTail (rest : List Char) : List Char :=
  (rest.reverse.dropWhile (· == '/')).dropWhile (· != '/')

/-- Node `path.posix.dirname`, phrased on the character list. Mirrors the
Node implementation: trailing slashes (at index ≥ 1) are skipped, the last
component removed, with the `'/'`, `'.'` and `"//"` special cases. -/
def dirnameChars (cs : List Char) : List Char :=
  match cs with
  | [] => ['.']
  | h :: rest =>
    if dirTail rest = [] then (if h = '/' then ['/'] else ['.'])
    else if h = '/' ∧ (dirTail rest).length = 1 then ['/', '/']
    else (h :: rest).take (dirTail rest).length

/-- Node `path.dirname` on POSIX paths. -/
def dirname (s : String) : String := ⟨dirnameChars s.data⟩

/-- Node `path.basename` on POSIX paths: trailing slashes skipped, the last
component returned (empty for all-slash or empty input). -/
def basename (s : String) : String :=
  ⟨((s.data.reverse.dropWhile (· == '/')).takeWhile (· != '/')).reverse⟩

/-- Split a character list on `'/'`. -/
def splitComps : List Char → List (List Char)
  | [] => [[]]
  | c :: cs =>
    let rest := splitComps cs
    if c = '/' then [] :: rest
    else
      match rest with
      | [] => [[c]]
      | r :: rs => (c :: r) :: rs

/-- Process path components against a reversed accumulator: `..` pops, `.`
and empty components vanish (Node normalization of an absolute path). -/
def normComps : List (List Char) → List (List Char) → List (List Char)
  | acc, [] => acc.reverse
  | acc, [] :: rest => normComps acc rest
  | acc, ['.'] :: rest => normComps acc rest
  | acc, ['.', '.'] :: rest =>
    match acc with
    | [] => normComps [] rest
    | _ :: acc' => normComps acc' rest
  | acc, comp :: rest => normComps (comp :: acc) rest

/-- Interleave `'/'` between components. -/
def joinComps : List (List Char) → List Char
  | [] => []
  | [c] => c
  | c :: cs => c ++ '/' :: joinComps cs

/-- Node `path.resolve(dir, rel)` for an absolute `dir` (the only use in
the source: `dir` is `path.dirname(filename)` of an absolute module
filename): right-most absolute segment wins, then normalization. -/
def resolvePath (dir rel : String) : String :=
  let joined := if strStartsWith rel "/" then rel.data else dir.data ++ '/' :: rel.data
  ⟨'/' :: joinComps (normComps [] (splitComps joined))⟩

/-! ## Workflow reference rewriter (`workflowsTransform`, source lines 54-79) -/

/-- One entry of `this.workflowsBundles`. -/
structure WBundle where
  sourcePath : String
  targetPath : String
deriving DecidableEq, Repr

/-- The `workflowsBundles` table: a string-keyed record, modelled as an
association list in insertion order (JS object key order). -/
abbrev WBTable := List (String × WBundle)

/-- Lookup in a string-keyed JS object. -/
def lookupAssoc {β : Type} : List (String × β) → String → Option β
  | [], _ => none
  | (k, v) :: rest, key => if k == key then some v else lookupAssoc rest key

/-- Assignment `obj[key] = v` on a string-keyed JS object: overwrites in
place, or appends a new key at the end. -/
def updAssoc {β : Type} : List (String × β) → String → β → List (String × β)
  | [], key, v => [(key, v)]
  | (k, w) :: rest, key, v =>
    if k == key then (k, v) :: rest else (k, w) :: updAssoc rest key v

/-- The keys of a string-keyed JS object, in order. -/
def assocKeys {β : Type} (l : List (String × β)) : List String := l.map Prod.fst

/-- Candidate bundle id number `k` in the collision loop: the base id for
`k = 0`, then `` `${baseWorkflowsBundleId}-${suffix}` `` for `suffix ≥ 1`. -/
def candId (base : String) : Nat → String
  | 0 => base
  | k + 1 => base ++ "-" ++ decRepr (k + 1)

/-- The property names a plain object literal `\x7b\x7d` inherits from
`Object.prototype`, which the JS `in` operator reports as present even on
an empty object. -/
def objectPrototypeKeys : List String :=
  ["constructor", "hasOwnProperty", "isPrototypeOf", "propertyIsEnumerable",
   "toLocaleString", "toString", "valueOf", "__proto__",
   "__defineGetter__", "__defineSetter__", "__lookupGetter__", "__lookupSetter__"]

/-- The guard of the collision `while` loop:
`workflowsBundleId in this.workflowsBundles && this.workflowsBundles[workflowsBundleId].sourcePath !== sourcePath`.
The `in` operator consults the prototype chain: on a plain object, an
identifier that is an inherited `Object.prototype` property name is
reported present even without an own entry, and reading `.sourcePath` on
the inherited value yields `undefined`, which differs from every source
path string — so such an identifier always blocks. An own entry blocks
exactly when it holds a different source path. -/
def isBlocked (t : WBTable) (src id : String) : Bool :=
  match lookupAssoc t id with
  | some e => e.sourcePath != src
  | none => objectPrototypeKeys.contains id

/-- The collision loop, fuel-structured: starting at candidate `k`, advance
while the candidate id is taken by a different source path (or inherited
from the prototype). -/
def allocGo (t : WBTable) (src base : String) : Nat → Nat → Nat
  | 0, k => k
  | fuel + 1, k =>
    if isBlocked t src (candId base k) then allocGo t src base fuel (k + 1) else k

/-- Index of the candidate the collision loop settles on. The fuel
`t.length + objectPrototypeKeys.length + 1` is sufficient (proved below):
the loop can only continue on distinct strings that are existing own keys
or inherited prototype keys. -/
def allocIdx (t : WBTable) (src base : String) : Nat :=
  allocGo t src base (t.length + objectPrototypeKeys.length + 1) 0

/-- Target path `` `./${workflowsBundleId}.workflowbundle.js` ``. -/
def mkTarget (id : String) : String := "./" ++ id ++ ".workflowbundle.js"

/-- Resolved source path of a workflow reference:
`path.resolve(path.dirname(filename), workflowsPath)`. -/
def srcOf (workflowsPath filename : String) : String :=
  resolvePath (dirname filename) workflowsPath

/-- Replacement for the first match of `/[^a-z0-9]+/i`: the leftmost
maximal run of non-alphanumeric characters becomes `'-'`; the regex has no
`g` flag, so the remainder is kept verbatim. -/
def replaceFirstRun : List Char → List Char
  | [] => []
  | c :: cs =>
    if isAlnumI c then c :: replaceFirstRun cs
    else '-' :: (c :: cs).dropWhile (fun d => !isAlnumI d)

/-- Replacement of the regex «caret dash» (anchored at the start) with the
empty string: drop one leading dash. -/
def trimLeadDash : List Char → List Char
  | '-' :: rest => rest
  | l => l

/-- Replacement of the regex «dash dollar» (anchored at the end) with the
empty string: drop one trailing dash. -/
def trimTrailDash (l : List Char) : List Char :=
  if l.getLast? == some '-' then l.dropLast else l

/-- `baseWorkflowsBundleId` of source lines 59-63: the basename of the
reference, first non-alphanumeric run replaced by a dash, then one leading
and one trailing dash dropped. -/
def baseWorkflowsBundleId (workflowsPath : String) : String :=
  ⟨trimTrailDash (trimLeadDash (replaceFirstRun (basename workflowsPath).data))⟩

/-- Identifier the collision loop settles on for a given table, source path
and base id. -/
def chosenId (t : WBTable) (src base : String) : String :=
  candId base (allocIdx t src base)

/-- The `workflowsTransform` callback (source lines 54-79): rejects
non-relative references, resolves the source path, derives the base id,
runs the collision loop, registers the entry and returns the target path.
`Except.error` models the thrown `Error`. The registration is modelled as a
plain own-key update, which is faithful because an allocated identifier can
never be the assignment-special inherited key `__proto__` (theorem
`rewrittenId_ne_proto` below: allocated ids never start with an
underscore). -/
def workflowsTransform (t : WBTable) (workflowsPath filename : String) :
    Except String (String × WBTable) :=
  if !(strStartsWith workflowsPath "./" || strStartsWith workflowsPath "../") then
    .error "workflowsPath must be relative"
  else
    let sourcePath := srcOf workflowsPath filename
    let base := baseWorkflowsBundleId workflowsPath
    let id := chosenId t sourcePath base
    let targetPath := mkTarget id
    .ok (targetPath, updAssoc t id ⟨sourcePath, targetPath⟩)

/-- Tables reachable from `t` by a sequence of successful
`workflowsTransform` invocations (hook invocations within one build run). -/
inductive Reachable : WBTable → WBTable → Prop
  | refl (t : WBTable) : Reachable t t
  | step {t ta tb : WBTable} (wp fn tp : String) :
      workflowsTransform t wp fn = .ok (tp, ta) → Reachable ta tb → Reachable t tb

/-- Well-formedness maintained by the rewriter: every registered entry's
target path is derived from its key. -/
def WFTable (t : WBTable) : Prop :=
  ∀ k e, lookupAssoc t k = some e → e.targetPath = mkTarget k

/-- Number of table entries holding a given source path. -/
def countSrc (t : WBTable) (src : String) : Nat :=
  (t.filter (fun p => p.2.sourcePath == src)).length

/-! ## Externalization classifier (`extractDependencies`, source lines 81-113) -/

/-- Construction-time classification environment: the entrypoint's package
root (`findPackageRoot(entrypointPath)`, possibly null), the compiled
externalization patterns as predicates, the bundler's resolver plus the
filesystem-dependent `findPackageRoot` and `require` of package metadata,
abstracted as oracles (`Except.error` models a thrown exception). -/
structure ClassifierEnv where
  entrypointPackageRoot : Option String
  patterns : List (String → Bool)
  findRoot : String → Except Unit (Option String)
  pkgMeta : String → Except Unit (String × String)

/-- One module request as seen by the `externals` callback:
`data.request`, and the outcome of `await data.getResolve()(data.context,
data.request, undefined)` (`none` models a rejection). -/
structure ModuleRequest where
  request : String
  resolveResult : Option String
deriving DecidableEq, Repr

/-- Fallback branch of `extractDependencies` (source lines 100-112): match
the raw request string; on match return `` `commonjs ${data.request}` ``
(the console warning has no modelled effect), else `undefined` (inline).
The dependency table is never touched here. -/
def rawFallback (env : ClassifierEnv) (deps : List (String × String))
    (req : ModuleRequest) : List (String × String) × Option String :=
  if env.patterns.any (fun p => p req.request) then
    (deps, some ("commonjs " ++ req.request))
  else
    (deps, none)

/-- The `extractDependencies` externals callback (source lines 81-113).
Returns the updated `packageJson.dependencies` table and the
classification: `some s` models returning the string `s`
(external-commonjs), `none` models returning `undefined` (inline). Any
throw inside the `try` block falls to the raw-string fallback, and so does
normal fall-through when the package root is missing or equals the
entrypoint's. -/
def extractDependencies (env : ClassifierEnv) (deps : List (String × String))
    (req : ModuleRequest) : List (String × String) × Option String :=
  match req.resolveResult with
  | none => rawFallback env deps req
  | some resolvedPath =>
    match env.findRoot resolvedPath with
    | .error _ => rawFallback env deps req
    | .ok none => rawFallback env deps req
    | .ok (some packageRoot) =>
      if env.entrypointPackageRoot != some packageRoot then
        match env.pkgMeta packageRoot with
        | .error _ => rawFallback env deps req
        | .ok (packageName, packageVersion) =>
          if env.patterns.any (fun p => p packageName) then
            (updAssoc deps packageName packageVersion,
             some ("commonjs " ++ req.request))
          else
            (deps, none)
      else
        rawFallback env deps req

/-- Decider for the built-in pattern
`/^.[/](?:[a-z0-9-]+)[.]workflowbundle[.]js$/` (source line 35): one
arbitrary character, `'/'`, a nonempty run of `[a-z0-9-]`, then the literal
suffix `.workflowbundle.js`. -/
def matchesWorkflowBundlePattern (s : String) : Bool :=
  match s.data with
  | _ :: '/' :: rest =>
    let n := rest.length
    if 19 ≤ n then
      let idPart := rest.take (n - 18)
      let sfx := rest.drop (n - 18)
      sfx == ".workflowbundle.js".data && idPart.all isWBIdChar && !idPart.isEmpty
    else false
  | _ => false

/-- Find the first occurrence of `pat` in a character list, returning the
segments before and after the match. -/
def findSub (pat : List Char) : List Char → List Char → Option (List Char × List Char)
  | acc, s =>
    if pat.isPrefixOf s then some (acc.reverse, s.drop pat.length)
    else
      match s with
      | [] => none
      | c :: rest => findSub pat (c :: acc) rest

/-- JS replacement-string expansion restricted to the `$&` insertion used
by the source (other characters are literal). -/
def substMatchRef (m : List Char) : List Char → List Char
  | [] => []
  | '$' :: '&' :: rest => m ++ substMatchRef m rest
  | c :: rest => c :: substMatchRef m rest

/-- JS `s.replace(pat, rep)` where `pat` is a STRING (not a regex): only
the first literal occurrence of `pat` is replaced, with `$&` in `rep`
standing for the matched text. This is exactly what source line 214 does,
since it passes the pattern as a string literal. -/
def jsReplaceFirst (s pat rep : String) : String :=
  match findSub pat.data [] s.data with
  | none => s
  | some (pre, post) => ⟨pre ++ substMatchRef pat.data rep.data ++ post⟩

/-- The string-typed first argument of `replace` on source line 214: the
characters `[.?*+|\([{^$]`. -/
def metaSearch : String := "[.?*+|\\([\x7b^$]"

/-- Source of the `RegExp` built by `toRegExp` for a literal string input
(source line 214): `` new RegExp(`^${input.replace('[.?*+|\\([{^$]', '\\$&')}$`) ``. -/
def toRegExp (input : String) : String :=
  "^" ++ jsReplaceFirst input metaSearch "\\$&" ++ "$"

/-- Matcher semantics for the fragment of JS regexes that `toRegExp` can
produce from a literal containing no escaped sequence: body between the `^`
and `$` anchors, where `\c` matches `c` literally, `.` matches any single
character, and every other character matches itself; the whole subject must
be consumed. -/
def matchBody : List Char → List Char → Bool
  | [], [] => true
  | '\\' :: p :: ps, c :: cs => p == c && matchBody ps cs
  | '.' :: ps, _ :: cs => matchBody ps cs
  | p :: ps, c :: cs => p == c && matchBody ps cs
  | _, _ => false

/-- Full-match test of a `^...$`-anchored pattern source against a subject
string. -/
def anchoredRegexTest (pat subject : String) : Bool :=
  match pat.data with
  | '^' :: rest =>
    if rest.getLast? == some '$' then matchBody rest.dropLast subject.data
    else false
  | _ => false

/-! ## Bundler resource lifecycle (`bundleWorker`, source lines 158-182) -/

/-- Observable bundler lifecycle events. -/
inductive BundlerEvent where
  | runInvoked
  | closeInvoked
deriving DecidableEq, Repr

/-- Outcome reported by `compiler.run(callback)`: an optional hard error
and, when stats are defined, whether they contain errors. -/
structure WebpackRun where
  err : Option String
  statsHasErrors : Option Bool
deriving DecidableEq, Repr

/-- Settlement of the promise wrapping `compiler.run` (source lines
160-178): a first `reject` wins, so stats with errors reject with
`'Webpack finished with errors.'`, else a hard error rejects, else resolve. -/
def webpackRunResult (r : WebpackRun) : Except String Unit :=
  if r.statsHasErrors == some true then .error "Webpack finished with errors."
  else
    match r.err with
    | some e => .error e
    | none => .ok ()

/-- Awaiting the run promise: one `runInvoked` event plus its outcome. -/
def runCompiler (r : WebpackRun) : List BundlerEvent × Except String Unit :=
  ([.runInvoked], webpackRunResult r)

/-- Awaiting `util.promisify(compiler.close).bind(compiler)()`: one
`closeInvoked` event, failing if `close` reports an error. -/
def closeCompiler (closeErr : Option String) : List BundlerEvent × Except String Unit :=
  ([.closeInvoked],
   match closeErr with
   | some e => .error e
   | none => .ok ())

/-- JS `try { body } finally { fin }` with an awaited `fin`: the finalizer
always runs after the body; a finalizer failure supersedes the body's
outcome. -/
def tryFinally (body fin : List BundlerEvent × Except String Unit) :
    List BundlerEvent × Except String Unit :=
  (body.1 ++ fin.1,
   match fin.2 with
   | .error e => .error e
   | .ok _ => body.2)

/-- `bundleWorker`'s compiler lifecycle (source lines 158-181): run inside
`try`, close inside `finally`. -/
def bundleWorker (r : WebpackRun) (closeErr : Option String) :
    List BundlerEvent × Except String Unit :=
  tryFinally (runCompiler r) (closeCompiler closeErr)

/-! ## `findPackageRoot` (source lines 218-227) -/

/-- Result of the upward directory walk. -/
inductive WalkResult where
  | found (dir : String)
  | noRoot
  | fuelOut
deriving DecidableEq, Repr

/-- The `while (p !== '/')` walk: check `` `${p}/package.json` `` against
the filesystem (a list of existing paths), else step to `path.dirname(p)`.
`fuelOut` marks exhausted fuel — reached only on inputs where the real loop
would not terminate. -/
def pkgWalk (fs : List String) : Nat → String → WalkResult
  | 0, _ => .fuelOut
  | fuel + 1, p =>
    if p == "/" then .noRoot
    else if fs.contains (p ++ "/package.json") then .found p
    else pkgWalk fs fuel (dirname p)

/-- `findPackageRoot(p)`: `realFS.statSync(p)` (`stat p = none` models a
throw, `some b` tells whether `p` is a file), then the upward walk starting
from `p` or its directory. -/
def findPackageRoot (fs : List String) (stat : String → Option Bool) (p : String) :
    Option WalkResult :=
  match stat p with
  | none => none
  | some isFile => some (pkgWalk fs (p.length + 1) (if isFile then dirname p else p))

/-! ## Association-list lemmas -/

theorem lookupAssoc_upd_self {β : Type} (t : List (String × β)) (k : String) (v : β) :
    lookupAssoc (updAssoc t k v) k = some v := by
  induction t with
  | nil =>
    simp [updAssoc, lookupAssoc]
  | cons hd rest ih =>
    obtain ⟨k', w⟩ := hd
    simp only [updAssoc, beq_iff_eq]
    by_cases h : k' = k
    · rw [if_pos h]
      simp only [lookupAssoc, beq_iff_eq]
      rw [if_pos h]
    · rw [if_neg h]
      simp only [lookupAssoc, beq_iff_eq]
      rw [if_neg h]
      exact ih

theorem lookupAssoc_upd_ne {β : Type} (t : List (String × β)) {k k' : String} (v : β)
    (h : k' ≠ k) : lookupAssoc (updAssoc t k v) k' = lookupAssoc t k' := by
  induction t with
  | nil =>
    simp only [updAssoc, lookupAssoc, beq_iff_eq]
    rw [if_neg (Ne.symm h)]
  | cons hd rest ih =>
    obtain ⟨k0, w⟩ := hd
    simp only [updAssoc, beq_iff_eq]
    by_cases h0 : k0 = k
    · rw [if_pos h0]
      have hne : k0 ≠ k' := by rw [h0]; exact Ne.symm h
      simp only [lookupAssoc, beq_iff_eq]
      rw [if_neg hne, if_neg hne]
    · rw [if_neg h0]
      simp only [lookupAssoc, beq_iff_eq]
      by_cases h1 : k0 = k'
      · rw [if_pos h1, if_pos h1]
      · rw [if_neg h1, if_neg h1]
        exact ih

theorem updAssoc_id {β : Type} {t : List (String × β)} {k : String} {v : β}
    (h : lookupAssoc t k = some v) : updAssoc t k v = t := by
  induction t with
  | nil => simp [lookupAssoc] at h
  | cons hd rest ih =>
    obtain ⟨k', w⟩ := hd
    simp only [lookupAssoc, beq_iff_eq] at h
    simp only [updAssoc, beq_iff_eq]
    by_cases h0 : k' = k
    · rw [if_pos h0]
      rw [if_pos h0] at h
      rw [h0, Option.some_inj.mp h]
    · rw [if_neg h0]
      rw [if_neg h0] at h
      rw [ih h]

theorem lookupAssoc_mem {β : Type} {t : List (String × β)} {k : String} {v : β}
    (h : lookupAssoc t k = some v) : k ∈ assocKeys t := by
  induction t with
  | nil => simp [lookupAssoc] at h
  | cons hd rest ih =>
    obtain ⟨k', w⟩ := hd
    simp only [lookupAssoc, beq_iff_eq] at h
    by_cases h0 : k' = k
    · simp [assocKeys, h0]
    · rw [if_neg h0] at h
      simp only [assocKeys, List.map_cons, List.mem_cons]
      exact Or.inr (ih h)

/-! ## Injectivity of the decimal representation and of candidate ids -/

theorem digitVal_digitCh : ∀ n, n < 10 → digitVal (digitCh n) = n := by decide

theorem digitFold_go :
    ∀ fuel n acc, n < fuel → digitFold 0 (decDigitsGo fuel n acc) = digitFold n acc := by
  intro fuel
  induction fuel with
  | zero => intro n acc h; omega
  | succ fuel ih =>
    intro n acc h
    by_cases h10 : n < 10
    · simp only [decDigitsGo, if_pos h10]
      show digitFold (0 * 10 + digitVal (digitCh n)) acc = digitFold n acc
      rw [digitVal_digitCh n h10]
      norm_num
    · have hrec : n / 10 < fuel := by
        have h1 : n / 10 < n := Nat.div_lt_self (by omega) (by omega)
        omega
      simp only [decDigitsGo, if_neg h10]
      rw [ih (n / 10) (digitCh (n % 10) :: acc) hrec]
      show digitFold (n / 10 * 10 + digitVal (digitCh (n % 10))) acc = digitFold n acc
      rw [digitVal_digitCh (n % 10) (by omega)]
      have : n / 10 * 10 + n % 10 = n := by omega
      rw [this]

theorem digitFold_decRepr (n : Nat) : digitFold 0 (decRepr n).data = n :=
  digitFold_go (n + 1) n [] (Nat.lt_succ_self n)

theorem decRepr_inj {m n : Nat} (h : decRepr m = decRepr n) : m = n := by
  have hm := digitFold_decRepr m
  have hn := digitFold_decRepr n
  rw [h] at hm
  omega

theorem candId_data_succ (base : String) (k : Nat) :
    (candId base (k + 1)).data = base.data ++ '-' :: (decRepr (k + 1)).data := by
  simp [candId, String.data_append]

theorem candId_inj (base : String) : ∀ {i j : Nat}, candId base i = candId base j → i = j := by
  have hlen : ∀ m : Nat, base ≠ candId base (m + 1) := by
    intro m h
    have hd := congrArg String.data h
    rw [candId_data_succ] at hd
    have := congrArg List.length hd
    simp at this
  intro i j h
  match i, j with
  | 0, 0 => rfl
  | 0, j + 1 => exact absurd h (hlen j)
  | i + 1, 0 => exact absurd h.symm (hlen i)
  | i + 1, j + 1 =>
    have hd := congrArg String.data h
    rw [candId_data_succ, candId_data_succ] at hd
    have h1 := List.append_cancel_left hd
    have h2 : (decRepr (i + 1)).data = (decRepr (j + 1)).data := by
      exact (List.cons.injEq _ _ _ _ ▸ h1).2
    have := decRepr_inj (String.ext h2)
    omega

/-! ## The collision loop settles on the least admissible candidate -/

theorem isBlocked_mem {t : WBTable} {src id : String} (h : isBlocked t src id = true) :
    id ∈ assocKeys t ∨ id ∈ objectPrototypeKeys := by
  unfold isBlocked at h
  cases hl : lookupAssoc t id with
  | none =>
    rw [hl] at h
    exact Or.inr (by simpa using h)
  | some e => exact Or.inl (lookupAssoc_mem hl)

theorem exists_unblocked (t : WBTable) (src base : String) :
    ∃ j, j ≤ t.length + objectPrototypeKeys.length ∧
      isBlocked t src (candId base j) = false := by
  by_contra hcon
  push_neg at hcon
  have hblk : ∀ j, j ≤ t.length + objectPrototypeKeys.length →
      isBlocked t src (candId base j) = true := by
    intro j hj
    have := hcon j hj
    exact Bool.ne_false_iff.mp this
  have hmem : ∀ j ∈ Finset.range (t.length + objectPrototypeKeys.length + 1),
      candId base j ∈ (assocKeys t ++ objectPrototypeKeys).toFinset := by
    intro j hj
    rw [List.mem_toFinset, List.mem_append]
    exact isBlocked_mem (hblk j (by simpa using Nat.lt_succ_iff.mp (Finset.mem_range.mp hj)))
  have hinj : Set.InjOn (fun j => candId base j)
      (Finset.range (t.length + objectPrototypeKeys.length + 1)) :=
    fun a _ b _ hab => candId_inj base hab
  have hcard := Finset.card_le_card_of_injOn (fun j => candId base j) hmem hinj
  have h1 : (assocKeys t ++ objectPrototypeKeys).toFinset.card
      ≤ (assocKeys t ++ objectPrototypeKeys).length :=
    List.toFinset_card_le (assocKeys t ++ objectPrototypeKeys)
  have h2 : (assocKeys t ++ objectPrototypeKeys).length
      = t.length + objectPrototypeKeys.length := by
    simp [assocKeys]
  rw [Finset.card_range] at hcard
  omega

theorem allocGo_spec (t : WBTable) (src base : String) :
    ∀ fuel k, (∃ j, j < fuel ∧ isBlocked t src (candId base (k + j)) = false) →
      isBlocked t src (candId base (allocGo t src base fuel k)) = false ∧
      k ≤ allocGo t src base fuel k ∧
      ∀ i, k ≤ i → i < allocGo t src base fuel k → isBlocked t src (candId base i) = true := by
  intro fuel
  induction fuel with
  | zero =>
    intro k h
    obtain ⟨j, hj, _⟩ := h
    omega
  | succ fuel ih =>
    intro k h
    obtain ⟨j, hjlt, hjfree⟩ := h
    by_cases hb : isBlocked t src (candId base k) = true
    · have hj0 : j ≠ 0 := by
        intro h0
        rw [h0] at hjfree
        simp at hjfree
        rw [hb] at hjfree
        cases hjfree
      have hex : ∃ j', j' < fuel ∧ isBlocked t src (candId base (k + 1 + j')) = false :=
        ⟨j - 1, by omega, by rw [show k + 1 + (j - 1) = k + j by omega]; exact hjfree⟩
      have hrec := ih (k + 1) hex
      simp only [allocGo, if_pos hb]
      refine ⟨hrec.1, by omega, ?_⟩
      intro i hki hilt
      by_cases hik : i = k
      · rw [hik]; exact hb
      · exact hrec.2.2 i (by omega) hilt
    · have hbf' : isBlocked t src (candId base k) = false := by
        cases hx : isBlocked t src (candId base k) with
        | false => rfl
        | true => exact absurd hx hb
      have hres : allocGo t src base (fuel + 1) k = k := by
        simp [allocGo, hbf']
      rw [hres]
      exact ⟨hbf', Nat.le_refl k, fun i h1 h2 => by omega⟩

theorem allocIdx_spec (t : WBTable) (src base : String) :
    isBlocked t src (candId base (allocIdx t src base)) = false ∧
    ∀ i, i < allocIdx t src base → isBlocked t src (candId base i) = true := by
  obtain ⟨j, hj, hfree⟩ := exists_unblocked t src base
  have h := allocGo_spec t src base (t.length + objectPrototypeKeys.length + 1) 0
    ⟨j, by omega, by simpa using hfree⟩
  exact ⟨h.1, fun i hi => h.2.2 i (Nat.zero_le i) hi⟩

theorem allocIdx_eq (t : WBTable) (src base : String) (j : Nat)
    (hfree : isBlocked t src (candId base j) = false)
    (hblk : ∀ i, i < j → isBlocked t src (candId base i) = true) :
    allocIdx t src base = j := by
  obtain ⟨h1, h2⟩ := allocIdx_spec t src base
  rcases lt_trichotomy (allocIdx t src base) j with h | h | h
  · rw [hblk _ h] at h1; cases h1
  · exact h
  · rw [h2 j h] at hfree; cases hfree

/-! ## Rewriter step lemmas: inversion, well-formedness, persistence -/

theorem mkTarget_inj {a b : String} (h : mkTarget a = mkTarget b) : a = b := by
  have hd := congrArg String.data h
  simp only [mkTarget, String.data_append, List.append_assoc] at hd
  have h1 := List.append_cancel_left hd
  exact String.ext (List.append_cancel_right h1)

theorem workflowsTransform_ok {t : WBTable} {wp fn tp : String} {t2 : WBTable}
    (h : workflowsTransform t wp fn = .ok (tp, t2)) :
    tp = mkTarget (chosenId t (srcOf wp fn) (baseWorkflowsBundleId wp)) ∧
    t2 = updAssoc t (chosenId t (srcOf wp fn) (baseWorkflowsBundleId wp))
      ⟨srcOf wp fn, mkTarget (chosenId t (srcOf wp fn) (baseWorkflowsBundleId wp))⟩ := by
  simp only [workflowsTransform] at h
  split at h
  · cases h
  · rw [Except.ok.injEq, Prod.mk.injEq] at h
    exact ⟨h.1.symm, h.2.symm⟩

theorem isBlocked_false_cases {t : WBTable} {src id : String}
    (h : isBlocked t src id = false) :
    lookupAssoc t id = none ∨ ∃ e, lookupAssoc t id = some e ∧ e.sourcePath = src := by
  unfold isBlocked at h
  cases hl : lookupAssoc t id with
  | none => exact Or.inl rfl
  | some e =>
    rw [hl] at h
    exact Or.inr ⟨e, rfl, by simpa using h⟩

theorem chosenId_unblocked (t : WBTable) (src base : String) :
    isBlocked t src (chosenId t src base) = false :=
  (allocIdx_spec t src base).1

theorem WFTable_nil : WFTable [] := by
  intro k e h
  simp [lookupAssoc] at h

theorem WFTable_step {t t2 : WBTable} {wp fn tp : String} (hwf : WFTable t)
    (h : workflowsTransform t wp fn = .ok (tp, t2)) : WFTable t2 := by
  obtain ⟨htp, ht2⟩ := workflowsTransform_ok h
  subst ht2
  intro k e hk
  by_cases hkid : k = chosenId t (srcOf wp fn) (baseWorkflowsBundleId wp)
  · subst hkid
    rw [lookupAssoc_upd_self] at hk
    have he := Option.some_inj.mp hk
    rw [← he]
  · rw [lookupAssoc_upd_ne _ _ hkid] at hk
    exact hwf k e hk

theorem persist_step {t t2 : WBTable} {wp fn tp : String} (hwf : WFTable t)
    (h : workflowsTransform t wp fn = .ok (tp, t2))
    {k : String} {e : WBundle} (hk : lookupAssoc t k = some e) :
    lookupAssoc t2 k = some e := by
  obtain ⟨htp, ht2⟩ := workflowsTransform_ok h
  subst ht2
  by_cases hkid : k = chosenId t (srcOf wp fn) (baseWorkflowsBundleId wp)
  · subst hkid
    rw [lookupAssoc_upd_self]
    have hub := chosenId_unblocked t (srcOf wp fn) (baseWorkflowsBundleId wp)
    rcases isBlocked_false_cases hub with hnone | ⟨e', he', hsrc⟩
    · rw [hk] at hnone; cases hnone
    · rw [hk] at he'
      have he2 : e = e' := Option.some_inj.mp he'
      have h1 : e.sourcePath = srcOf wp fn := by rw [he2]; exact hsrc
      have h2 : e.targetPath
          = mkTarget (chosenId t (srcOf wp fn) (baseWorkflowsBundleId wp)) :=
        hwf _ e hk
      refine congrArg some ?_
      cases e with
      | mk es et =>
        simp only [WBundle.mk.injEq]
        exact ⟨h1.symm, h2.symm⟩
  · rw [lookupAssoc_upd_ne _ _ hkid]
    exact hk

theorem WFTable_reach {ta tb : WBTable} (h : Reachable ta tb) :
    WFTable ta → WFTable tb := by
  induction h with
  | refl t => exact id
  | step wp fn tp hstep _ ih => exact fun hwf => ih (WFTable_step hwf hstep)

theorem persist_reach {ta tb : WBTable} (h : Reachable ta tb) :
    WFTable ta → ∀ {k : String} {e : WBundle},
      lookupAssoc ta k = some e → lookupAssoc tb k = some e := by
  induction h with
  | refl t =>
    intro _ k e hk
    exact hk
  | step wp fn tp hstep _ ih =>
    intro hwf k e hk
    exact ih (WFTable_step hwf hstep) (persist_step hwf hstep hk)

theorem proto_none_persist {ta tb : WBTable} (h : Reachable ta tb) :
    ∀ {id : String}, objectPrototypeKeys.contains id = true →
      lookupAssoc ta id = none → lookupAssoc tb id = none := by
  induction h with
  | refl t =>
    intro id _ hn
    exact hn
  | @step t0 ta0 tb0 wp fn tp hstep hre ih =>
    intro id hc hn
    apply ih hc
    obtain ⟨htp, hta⟩ := workflowsTransform_ok hstep
    subst hta
    by_cases hid : id = chosenId t0 (srcOf wp fn) (baseWorkflowsBundleId wp)
    · exfalso
      have hub := chosenId_unblocked t0 (srcOf wp fn) (baseWorkflowsBundleId wp)
      rw [← hid] at hub
      unfold isBlocked at hub
      rw [hn, hc] at hub
      cases hub
    · rw [lookupAssoc_upd_ne _ _ hid]
      exact hn

theorem isBlocked_persist {ta tb : WBTable} (h : Reachable ta tb) (hwf : WFTable ta)
    {src id : String} (hb : isBlocked ta src id = true) : isBlocked tb src id = true := by
  unfold isBlocked at hb ⊢
  cases hl : lookupAssoc ta id with
  | none =>
    rw [hl] at hb
    rw [proto_none_persist h hb hl]
    exact hb
  | some e =>
    rw [hl] at hb
    rw [persist_reach h hwf hl]
    exact hb

theorem isBlocked_of_lookup {t : WBTable} {id src : String} {e : WBundle}
    (hl : lookupAssoc t id = some e) (hne : e.sourcePath ≠ src) :
    isBlocked t src id = true := by
  unfold isBlocked
  rw [hl]
  exact bne_iff_ne.mpr hne

theorem unblocked_of_lookup {t : WBTable} {id src : String} {e : WBundle}
    (hl : lookupAssoc t id = some e) (hsrc : e.sourcePath = src) :
    isBlocked t src id = false := by
  unfold isBlocked
  rw [hl]
  simp [hsrc]

theorem unblocked_of_none_fresh {t : WBTable} {id src : String}
    (hl : lookupAssoc t id = none)
    (hp : objectPrototypeKeys.contains id = false) : isBlocked t src id = false := by
  unfold isBlocked
  rw [hl]
  exact hp

/-- Claim C2, corrected: as stated the claim is false (see
`c2_counterexample`: two reference strings resolving to the same source
path may carry different basenames and thus different candidate ids).
Amended claim: for any two rewriter invocations within one build run whose
reference strings resolve to the same absolute source path AND derive the
same candidate base identifier, the rewriter returns the identical target
path both times, and the second invocation leaves the bundle table
unchanged (no second entry is created for that source path). -/
theorem c2_amended :
    ∀ (t1 ta t2 tb : WBTable) (wp1 fn1 wp2 fn2 tp1 tp2 : String),
      WFTable t1 →
      workflowsTransform t1 wp1 fn1 = .ok (tp1, ta) →
      Reachable ta t2 →
      workflowsTransform t2 wp2 fn2 = .ok (tp2, tb) →
      srcOf wp1 fn1 = srcOf wp2 fn2 →
      baseWorkflowsBundleId wp1 = baseWorkflowsBundleId wp2 →
      tp1 = tp2 ∧ tb = t2 := by
  intro t1 ta t2 tb wp1 fn1 wp2 fn2 tp1 tp2 hwf h1 hre h2 hsrc hbase
  obtain ⟨htp1, hta⟩ := workflowsTransform_ok h1
  obtain ⟨htp2, htb⟩ := workflowsTransform_ok h2
  rw [← hsrc, ← hbase] at htp2 htb
  have hspec1 := allocIdx_spec t1 (srcOf wp1 fn1) (baseWorkflowsBundleId wp1)
  have hlta : lookupAssoc ta (chosenId t1 (srcOf wp1 fn1) (baseWorkflowsBundleId wp1))
      = some ⟨srcOf wp1 fn1,
          mkTarget (chosenId t1 (srcOf wp1 fn1) (baseWorkflowsBundleId wp1))⟩ := by
    rw [hta]
    exact lookupAssoc_upd_self _ _ _
  have hlt2 := persist_reach hre (WFTable_step hwf h1) hlta
  have hreach12 : Reachable t1 t2 := Reachable.step wp1 fn1 tp1 h1 hre
  have hidx : allocIdx t2 (srcOf wp1 fn1) (baseWorkflowsBundleId wp1)
      = allocIdx t1 (srcOf wp1 fn1) (baseWorkflowsBundleId wp1) := by
    apply allocIdx_eq
    · exact unblocked_of_lookup hlt2 rfl
    · intro i hi
      exact isBlocked_persist hreach12 hwf (hspec1.2 i hi)
  have hid : chosenId t2 (srcOf wp1 fn1) (baseWorkflowsBundleId wp1)
      = chosenId t1 (srcOf wp1 fn1) (baseWorkflowsBundleId wp1) := by
    unfold chosenId
    rw [hidx]
  constructor
  · rw [htp1, htp2, hid]
  · rw [hid] at htb
    rw [htb]
    exact updAssoc_id hlt2

/-- Claim C2 counterexample: the reference strings `"./wf"` and
`"./wf/x/.."` (from the same file `/p/f.ts`) resolve to the same absolute
source path `/p/wf`, yet the rewriter returns two different target paths
and registers two `WorkflowBundleEntry` records for that source path,
because the candidate id is derived from `path.basename` of the raw
reference (`"wf"` versus `".."`, the latter collapsing to the empty id). -/
theorem c2_counterexample :
    workflowsTransform [] "./wf" "/p/f.ts"
      = .ok ("./wf.workflowbundle.js",
          [("wf", ⟨"/p/wf", "./wf.workflowbundle.js"⟩)]) ∧
    workflowsTransform [("wf", ⟨"/p/wf", "./wf.workflowbundle.js"⟩)] "./wf/x/.." "/p/f.ts"
      = .ok ("./.workflowbundle.js",
          [("wf", ⟨"/p/wf", "./wf.workflowbundle.js"⟩),
           ("", ⟨"/p/wf", "./.workflowbundle.js"⟩)]) ∧
    srcOf "./wf" "/p/f.ts" = srcOf "./wf/x/.." "/p/f.ts" ∧
    ("./wf.workflowbundle.js" : String) ≠ "./.workflowbundle.js" ∧
    countSrc [("wf", ⟨"/p/wf", "./wf.workflowbundle.js"⟩),
              ("", ⟨"/p/wf", "./.workflowbundle.js"⟩)] "/p/wf" = 2 :=
  ⟨by decide, by decide, by decide, by decide, by decide⟩

/-- Witness for the amended claim C2: repeating the same reference
`"./wf"` from the same file returns the same target path, and the second
invocation leaves the table unchanged. -/
theorem c2_amended_witness :
    workflowsTransform [] "./wf" "/p/f.ts"
      = .ok ("./wf.workflowbundle.js",
          [("wf", ⟨"/p/wf", "./wf.workflowbundle.js"⟩)]) ∧
    workflowsTransform [("wf", ⟨"/p/wf", "./wf.workflowbundle.js"⟩)] "./wf" "/p/f.ts"
      = .ok ("./wf.workflowbundle.js",
          [("wf", ⟨"/p/wf", "./wf.workflowbundle.js"⟩)]) ∧
    ("./wf.workflowbundle.js" : String) = "./wf.workflowbundle.js" ∧
    [("wf", (⟨"/p/wf", "./wf.workflowbundle.js"⟩ : WBundle))]
      = [("wf", ⟨"/p/wf", "./wf.workflowbundle.js"⟩)] := by
  have h1 : workflowsTransform [] "./wf" "/p/f.ts"
      = .ok ("./wf.workflowbundle.js",
          [("wf", ⟨"/p/wf", "./wf.workflowbundle.js"⟩)]) := by decide
  have h2 : workflowsTransform [("wf", ⟨"/p/wf", "./wf.workflowbundle.js"⟩)] "./wf" "/p/f.ts"
      = .ok ("./wf.workflowbundle.js",
          [("wf", ⟨"/p/wf", "./wf.workflowbundle.js"⟩)]) := by decide
  have h := c2_amended [] [("wf", ⟨"/p/wf", "./wf.workflowbundle.js"⟩)]
    [("wf", ⟨"/p/wf", "./wf.workflowbundle.js"⟩)] [("wf", ⟨"/p/wf", "./wf.workflowbundle.js"⟩)]
    "./wf" "/p/f.ts" "./wf" "/p/f.ts"
    "./wf.workflowbundle.js" "./wf.workflowbundle.js"
    WFTable_nil h1 (Reachable.refl _) h2 rfl rfl
  exact ⟨h1, h2, h.1, h.2⟩

/-- Claim C3, corrected: as stated the claim is false (see
`c3_counterexample`): the `in` membership check of the collision loop
consults the prototype chain, so for a base identifier that is an inherited
`Object.prototype` property name (e.g. `"constructor"`), the loop starts
blocked even on an empty table and the FIRST reference already receives the
`-1` suffix instead of keeping the base identifier. Amended claim — part
one: any two successful rewriter invocations in one run whose references
resolve to different source paths return different target paths (so two
different source paths are never assigned the same identifier). Part two:
starting from a table in which the shared candidate base identifier is
unused AND the base identifier is not an inherited `Object.prototype`
property name, the first of two same-base different-source references keeps
the base identifier, and the second receives `base-j` for the least suffix
`j ≥ 1` not blocked by an identifier already in use, hence a different
identifier. -/
theorem c3_allocator :
    (∀ (t1 ta t2 tb : WBTable) (wpA fnA wpB fnB tpA tpB : String),
      WFTable t1 →
      workflowsTransform t1 wpA fnA = .ok (tpA, ta) →
      Reachable ta t2 →
      workflowsTransform t2 wpB fnB = .ok (tpB, tb) →
      srcOf wpA fnA ≠ srcOf wpB fnB →
      tpA ≠ tpB) ∧
    (∀ (t t1 t2 : WBTable) (wp1 fn1 wp2 fn2 tp1 tp2 : String),
      WFTable t →
      baseWorkflowsBundleId wp1 = baseWorkflowsBundleId wp2 →
      srcOf wp1 fn1 ≠ srcOf wp2 fn2 →
      lookupAssoc t (baseWorkflowsBundleId wp1) = none →
      objectPrototypeKeys.contains (baseWorkflowsBundleId wp1) = false →
      workflowsTransform t wp1 fn1 = .ok (tp1, t1) →
      workflowsTransform t1 wp2 fn2 = .ok (tp2, t2) →
      tp1 = mkTarget (baseWorkflowsBundleId wp1) ∧
      (∃ j, 1 ≤ j ∧ tp2 = mkTarget (candId (baseWorkflowsBundleId wp1) j) ∧
        ∀ i, 1 ≤ i → i < j →
          isBlocked t1 (srcOf wp2 fn2) (candId (baseWorkflowsBundleId wp1) i) = true) ∧
      tp1 ≠ tp2) := by
  constructor
  · intro t1 ta t2 tb wpA fnA wpB fnB tpA tpB hwf h1 hre h2 hsrc heq
    obtain ⟨htpA, htaA⟩ := workflowsTransform_ok h1
    obtain ⟨htpB, _⟩ := workflowsTransform_ok h2
    have hid : chosenId t1 (srcOf wpA fnA) (baseWorkflowsBundleId wpA)
        = chosenId t2 (srcOf wpB fnB) (baseWorkflowsBundleId wpB) := by
      apply mkTarget_inj
      rw [← htpA, ← htpB]
      exact heq
    have hlta : lookupAssoc ta (chosenId t1 (srcOf wpA fnA) (baseWorkflowsBundleId wpA))
        = some ⟨srcOf wpA fnA,
            mkTarget (chosenId t1 (srcOf wpA fnA) (baseWorkflowsBundleId wpA))⟩ := by
      rw [htaA]
      exact lookupAssoc_upd_self _ _ _
    have hlt2 := persist_reach hre (WFTable_step hwf h1) hlta
    have hub := chosenId_unblocked t2 (srcOf wpB fnB) (baseWorkflowsBundleId wpB)
    rw [← hid] at hub
    rcases isBlocked_false_cases hub with hnone | ⟨e, he, hesrc⟩
    · rw [hlt2] at hnone
      cases hnone
    · rw [hlt2] at he
      have he2 := Option.some_inj.mp he
      rw [← he2] at hesrc
      exact hsrc hesrc
  · intro t t1 t2 wp1 fn1 wp2 fn2 tp1 tp2 hwf hbase hsrc hfree hproto h1 h2
    obtain ⟨htp1, ht1⟩ := workflowsTransform_ok h1
    obtain ⟨htp2, _⟩ := workflowsTransform_ok h2
    rw [← hbase] at htp2
    have hidx1 : allocIdx t (srcOf wp1 fn1) (baseWorkflowsBundleId wp1) = 0 := by
      apply allocIdx_eq
      · exact unblocked_of_none_fresh hfree hproto
      · intro i hi
        omega
    have hid1 : chosenId t (srcOf wp1 fn1) (baseWorkflowsBundleId wp1)
        = baseWorkflowsBundleId wp1 := by
      unfold chosenId
      rw [hidx1]
      rfl
    have htp1' : tp1 = mkTarget (baseWorkflowsBundleId wp1) := by
      rw [htp1, hid1]
    have hlt1 : lookupAssoc t1 (baseWorkflowsBundleId wp1)
        = some ⟨srcOf wp1 fn1, mkTarget (baseWorkflowsBundleId wp1)⟩ := by
      rw [ht1, hid1]
      exact lookupAssoc_upd_self t (baseWorkflowsBundleId wp1)
        (⟨srcOf wp1 fn1, mkTarget (baseWorkflowsBundleId wp1)⟩ : WBundle)
    have hspec2 := allocIdx_spec t1 (srcOf wp2 fn2) (baseWorkflowsBundleId wp1)
    have hblk0 : isBlocked t1 (srcOf wp2 fn2) (candId (baseWorkflowsBundleId wp1) 0) = true := by
      exact isBlocked_of_lookup hlt1 hsrc
    have hj2pos : 1 ≤ allocIdx t1 (srcOf wp2 fn2) (baseWorkflowsBundleId wp1) := by
      rcases Nat.eq_zero_or_pos (allocIdx t1 (srcOf wp2 fn2) (baseWorkflowsBundleId wp1)) with h0 | h0
      · rw [h0] at hspec2
        rw [hspec2.1] at hblk0
        cases hblk0
      · omega
    refine ⟨htp1', ⟨allocIdx t1 (srcOf wp2 fn2) (baseWorkflowsBundleId wp1), hj2pos, ?_, ?_⟩, ?_⟩
    · rw [htp2]
      rfl
    · intro i h1i hij
      exact hspec2.2 i hij
    · rw [htp1', htp2]
      intro heq
      have := @candId_inj (baseWorkflowsBundleId wp1) 0
        (allocIdx t1 (srcOf wp2 fn2) (baseWorkflowsBundleId wp1)) (mkTarget_inj heq)
      omega

/-- Claim C3 counterexample: for the reference `"./constructor"` the
candidate base identifier is `"constructor"`, which is unused in the empty
table (`lookupAssoc` finds nothing), yet the JS `in` check sees the
inherited `Object.prototype` member, so the FIRST reference does not keep
the base identifier: it is assigned `constructor-1` (and a second
different-source reference gets `constructor-2`). This falsifies the
claim's "the first keeps the base identifier, the second receives the base
with an incrementing numeric suffix starting at 1". -/
theorem c3_counterexample :
    workflowsTransform [] "./constructor" "/p/a/f.ts"
      = .ok ("./constructor-1.workflowbundle.js",
          [("constructor-1",
            ⟨"/p/a/constructor", "./constructor-1.workflowbundle.js"⟩)]) ∧
    workflowsTransform
        [("constructor-1",
          ⟨"/p/a/constructor", "./constructor-1.workflowbundle.js"⟩)]
        "./constructor" "/p/b/f.ts"
      = .ok ("./constructor-2.workflowbundle.js",
          [("constructor-1",
            ⟨"/p/a/constructor", "./constructor-1.workflowbundle.js"⟩),
           ("constructor-2",
            ⟨"/p/b/constructor", "./constructor-2.workflowbundle.js"⟩)]) ∧
    baseWorkflowsBundleId "./constructor" = "constructor" ∧
    lookupAssoc ([] : WBTable) (baseWorkflowsBundleId "./constructor") = none ∧
    ("./constructor-1.workflowbundle.js" : String)
      ≠ mkTarget (baseWorkflowsBundleId "./constructor") :=
  ⟨by decide, by decide, by decide, by decide, by decide⟩

/-- Witness for the amended claim C3: two references `"./wfs"` from `/p/a/f.ts` and
`/p/b/f.ts` resolve to different source paths with the same base id
`"wfs"`; the first receives `./wfs.workflowbundle.js` and the second
`./wfs-1.workflowbundle.js`, two different targets. -/
theorem c3_allocator_witness :
    workflowsTransform [] "./wfs" "/p/a/f.ts"
      = .ok ("./wfs.workflowbundle.js",
          [("wfs", ⟨"/p/a/wfs", "./wfs.workflowbundle.js"⟩)]) ∧
    workflowsTransform [("wfs", ⟨"/p/a/wfs", "./wfs.workflowbundle.js"⟩)] "./wfs" "/p/b/f.ts"
      = .ok ("./wfs-1.workflowbundle.js",
          [("wfs", ⟨"/p/a/wfs", "./wfs.workflowbundle.js"⟩),
           ("wfs-1", ⟨"/p/b/wfs", "./wfs-1.workflowbundle.js"⟩)]) ∧
    srcOf "./wfs" "/p/a/f.ts" ≠ srcOf "./wfs" "/p/b/f.ts" ∧
    ("./wfs.workflowbundle.js" : String) ≠ "./wfs-1.workflowbundle.js" ∧
    ("./wfs.workflowbundle.js" : String) = mkTarget (baseWorkflowsBundleId "./wfs") := by
  have h1 : workflowsTransform [] "./wfs" "/p/a/f.ts"
      = .ok ("./wfs.workflowbundle.js",
          [("wfs", ⟨"/p/a/wfs", "./wfs.workflowbundle.js"⟩)]) := by decide
  have h2 : workflowsTransform [("wfs", ⟨"/p/a/wfs", "./wfs.workflowbundle.js"⟩)]
        "./wfs" "/p/b/f.ts"
      = .ok ("./wfs-1.workflowbundle.js",
          [("wfs", ⟨"/p/a/wfs", "./wfs.workflowbundle.js"⟩),
           ("wfs-1", ⟨"/p/b/wfs", "./wfs-1.workflowbundle.js"⟩)]) := by decide
  have hsrc : srcOf "./wfs" "/p/a/f.ts" ≠ srcOf "./wfs" "/p/b/f.ts" := by decide
  have hne := c3_allocator.1 [] [("wfs", ⟨"/p/a/wfs", "./wfs.workflowbundle.js"⟩)]
    [("wfs", ⟨"/p/a/wfs", "./wfs.workflowbundle.js"⟩)]
    [("wfs", ⟨"/p/a/wfs", "./wfs.workflowbundle.js"⟩),
     ("wfs-1", ⟨"/p/b/wfs", "./wfs-1.workflowbundle.js"⟩)]
    "./wfs" "/p/a/f.ts" "./wfs" "/p/b/f.ts"
    "./wfs.workflowbundle.js" "./wfs-1.workflowbundle.js"
    WFTable_nil h1 (Reachable.refl _) h2 hsrc
  have hsc := c3_allocator.2 []
    [("wfs", ⟨"/p/a/wfs", "./wfs.workflowbundle.js"⟩)]
    [("wfs", ⟨"/p/a/wfs", "./wfs.workflowbundle.js"⟩),
     ("wfs-1", ⟨"/p/b/wfs", "./wfs-1.workflowbundle.js"⟩)]
    "./wfs" "/p/a/f.ts" "./wfs" "/p/b/f.ts"
    "./wfs.workflowbundle.js" "./wfs-1.workflowbundle.js"
    WFTable_nil rfl hsrc (by decide) (by decide) h1 h2
  exact ⟨h1, h2, hsrc, hne, hsc.1⟩

/-- Claim C4: a workflow reference string that does not start with `"./"`
or `"../"` makes `workflowsTransform` throw the `ConfigurationError`
`'workflowsPath must be relative'` at once — before the reference is
resolved and before any entry is registered, so the failing invocation
contributes no bundle entry and the thrown error aborts the build. -/
theorem c4_relative_guard :
    ∀ (t : WBTable) (wp fn : String),
      (strStartsWith wp "./" || strStartsWith wp "../") = false →
      workflowsTransform t wp fn = .error "workflowsPath must be relative" := by
  intro t wp fn h
  simp [workflowsTransform, h]

/-- Witness for claim C4 at the reference string `"workflows"`. -/
theorem c4_relative_guard_witness :
    (strStartsWith "workflows" "./" || strStartsWith "workflows" "../") = false ∧
    workflowsTransform [] "workflows" "/p/f.ts"
      = .error "workflowsPath must be relative" :=
  ⟨by decide, c4_relative_guard [] "workflows" "/p/f.ts" (by decide)⟩

/-- Claim C5, code bug: `toRegExp` passes its metacharacter class to
`String.replace` as a STRING pattern (source line 214), so it would only
replace a literal occurrence of the thirteen-character text and never
escapes anything. For the literal rule `"a.b"` the compiled regex source is
`^a.b$`, whose unescaped dot is a wildcard: it matches the candidate
`"axb"`, although `"axb"` differs from the literal — the claimed
matches-iff-equal contract fails. -/
theorem c5_literal_escape_bug :
    toRegExp "a.b" = "^a.b$" ∧
    anchoredRegexTest (toRegExp "a.b") "axb" = true ∧
    ("axb" : String) ≠ "a.b" ∧
    anchoredRegexTest "^a\\.b$" "axb" = false :=
  ⟨by decide, by decide, by decide, by decide⟩

/-- Claim C6: on every execution of `bundleWorker`, whatever the outcome of
the webpack run and of `close` itself, the compiler's release
(`compiler.close`) is awaited after the run and before `bundleWorker`
returns or raises: the event trace is always `[runInvoked, closeInvoked]`. -/
theorem c6_close_always :
    ∀ (r : WebpackRun) (closeErr : Option String),
      (bundleWorker r closeErr).1 = [BundlerEvent.runInvoked, BundlerEvent.closeInvoked] ∧
      (bundleWorker r closeErr).1.getLast? = some BundlerEvent.closeInvoked := by
  intro r c
  exact ⟨rfl, rfl⟩

/-- Claim C8, code bug: the sanitizing regex (source line 61) lacks the
global flag, so only the FIRST run of non-alphanumeric characters is
collapsed. For the reference `"./a.b.c"` the derived candidate id is
`"a-b.c"`, which still contains a character that is neither alphanumeric
nor the separator — the claimed every-run collapse fails (it would give
`"a-b-c"`). -/
theorem c8_collapse_bug :
    baseWorkflowsBundleId "./a.b.c" = "a-b.c" ∧
    (baseWorkflowsBundleId "./a.b.c").data.all (fun c => isAlnumI c || c == '-') = false :=
  ⟨by decide, by decide⟩

/-- Claim C9, code bug: the rewriter can return target paths that do NOT
match the built-in workflow-artifact externalization pattern. The `i` flag
on the sanitizing regex keeps uppercase letters, but the externalization
pattern (source line 35) only admits `[a-z0-9-]`: the reference `"./Wf"`
yields the target `./Wf.workflowbundle.js`, which the pattern rejects — so
that rewritten self-reference would not be classified external. A
well-formed lowercase id is accepted, confirming the pattern decider. -/
theorem c9_pattern_bug :
    workflowsTransform [] "./Wf" "/p/f.ts"
      = .ok ("./Wf.workflowbundle.js",
          [("Wf", ⟨"/p/Wf", "./Wf.workflowbundle.js"⟩)]) ∧
    matchesWorkflowBundlePattern "./Wf.workflowbundle.js" = false ∧
    matchesWorkflowBundlePattern "./wf.workflowbundle.js" = true ∧
    matchesWorkflowBundlePattern "./.workflowbundle.js" = false :=
  ⟨by decide, by decide, by decide, by decide⟩

/-- Claim C1 counterexample: a request whose resolved file lies inside the
entrypoint's own package boundary (resolver maps `lodash` to a vendored
copy under `/app`, whose package root IS the entrypoint root `/app`) is
nonetheless classified external-commonjs, because the code falls through to
raw-request-string matching instead of returning inline. -/
theorem c1_counterexample :
    extractDependencies
      { entrypointPackageRoot := some "/app",
        patterns := [fun s => s == "lodash"],
        findRoot := fun _ => .ok (some "/app"),
        pkgMeta := fun _ => .ok ("lodash", "1.0.0") }
      [] { request := "lodash", resolveResult := some "/app/vendored/lodash.js" }
      = ([], some "commonjs lodash") ∧
    (some "commonjs lodash" : Option String) ≠ none :=
  ⟨rfl, by decide⟩

/-- Claim C1, corrected: when the main build's resolution succeeds and the
resolved file's package boundary is missing or equals the entrypoint's own
package boundary, the classifier does NOT unconditionally return inline; it
falls through to matching the raw request string against the
externalization rules. It returns inline exactly when the raw request
string matches no rule; on a match it externalizes the request (and records
nothing in the dependency table, which is left unchanged either way). -/
theorem c1_amended :
    ∀ (env : ClassifierEnv) (deps : List (String × String)) (req : ModuleRequest)
      (rp : String),
      req.resolveResult = some rp →
      (env.findRoot rp = .ok none ∨
        ∃ r, env.findRoot rp = .ok (some r) ∧ env.entrypointPackageRoot = some r) →
      extractDependencies env deps req =
        (deps, if env.patterns.any (fun p => p req.request)
               then some ("commonjs " ++ req.request) else none) := by
  intro env deps req rp hres hb
  obtain ⟨reqstr, rres⟩ := req
  have hres' : rres = some rp := hres
  subst hres'
  rcases hb with hnone | ⟨r, hr, hent⟩
  · simp only [extractDependencies, hnone]
    simp only [rawFallback]
    by_cases hc : (env.patterns.any fun p => p reqstr) = true
    · rw [if_pos hc, if_pos hc]
    · rw [if_neg hc, if_neg hc]
  · simp only [extractDependencies, hr]
    rw [if_neg (by rw [hent]; simp)]
    simp only [rawFallback]
    by_cases hc : (env.patterns.any fun p => p reqstr) = true
    · rw [if_pos hc, if_pos hc]
    · rw [if_neg hc, if_neg hc]

/-- Witness for the amended claim C1: a relative request resolving to a
file with no package boundary at all, matching no rule, is classified
inline with the dependency table untouched. -/
theorem c1_amended_witness :
    extractDependencies
      { entrypointPackageRoot := some "/app",
        patterns := [fun s => s == "left-pad"],
        findRoot := fun _ => .ok none,
        pkgMeta := fun _ => .error () }
      [] { request := "./util", resolveResult := some "/app/util.ts" }
      = ([], none) := by
  have h := c1_amended
    { entrypointPackageRoot := some "/app",
      patterns := [fun s => s == "left-pad"],
      findRoot := fun _ => .ok none,
      pkgMeta := fun _ => .error () }
    [] { request := "./util", resolveResult := some "/app/util.ts" } "/app/util.ts"
    rfl (Or.inl rfl)
  rw [h]
  rfl

/-! ## Manifest dependency accounting (claim C7) -/

theorem dropWhile_length_le (p : Char → Bool) :
    ∀ l : List Char, (l.dropWhile p).length ≤ l.length := by
  intro l
  induction l with
  | nil => simp [List.dropWhile]
  | cons c cs ih =>
    simp only [List.dropWhile]
    split
    · exact Nat.le_succ_of_le ih
    · exact Nat.le_refl _

theorem dropWhile_head_not (p : Char → Bool) :
    ∀ (l : List Char) (c : Char) (cs : List Char),
      l.dropWhile p = c :: cs → p c = false := by
  intro l
  induction l with
  | nil =>
    intro c cs h
    simp [List.dropWhile] at h
  | cons a as ih =>
    intro c cs h
    cases hp : p a with
    | true =>
      rw [List.dropWhile_cons, if_pos hp] at h
      exact ih c cs h
    | false =>
      rw [List.dropWhile_cons, if_neg (by rw [hp]; exact Bool.false_ne_true)] at h
      have : a = c := (List.cons.injEq _ _ _ _ ▸ h).1
      rw [← this]
      exact hp

theorem dropWhile_shrink (p : Char → Bool) (l : List Char) :
    l.dropWhile p = l ∨ (l.dropWhile p).length < l.length := by
  cases l with
  | nil => exact Or.inl rfl
  | cons a as =>
    cases hp : p a with
    | false =>
      left
      rw [List.dropWhile_cons, if_neg (by rw [hp]; exact Bool.false_ne_true)]
    | true =>
      right
      rw [List.dropWhile_cons, if_pos hp]
      have := dropWhile_length_le p as
      simp only [List.length_cons]
      omega

theorem dirTail_len_le (rest : List Char) : (dirTail rest).length ≤ rest.length := by
  unfold dirTail
  calc ((rest.reverse.dropWhile (· == '/')).dropWhile (· != '/')).length
      ≤ (rest.reverse.dropWhile (· == '/')).length := dropWhile_length_le _ _
    _ ≤ rest.reverse.length := dropWhile_length_le _ _
    _ = rest.length := List.length_reverse rest

theorem dirTail_two {rest : List Char} (h2 : dirTail rest ≠ [])
    (hlen : (dirTail rest).length = 1) : 2 ≤ rest.length := by
  have hr1ne : rest.reverse.dropWhile (· == '/') ≠ [] := by
    intro h0
    apply h2
    unfold dirTail
    rw [h0]
    rfl
  obtain ⟨d, ds, hd⟩ : ∃ d ds, rest.reverse.dropWhile (· == '/') = d :: ds := by
    cases hx : rest.reverse.dropWhile (· == '/') with
    | nil => exact absurd hx hr1ne
    | cons d ds => exact ⟨d, ds, rfl⟩
  have hdns : (d == '/') = false := dropWhile_head_not _ _ d ds hd
  obtain ⟨c, cs, hc⟩ : ∃ c cs, dirTail rest = c :: cs := by
    cases hx : dirTail rest with
    | nil => exact absurd hx h2
    | cons c cs => exact ⟨c, cs, rfl⟩
  have hcslash : (c != '/') = false := by
    have := dropWhile_head_not (· != '/') (rest.reverse.dropWhile (· == '/')) c cs
    exact this (by rw [← hc]; rfl)
  have hceq : c = '/' := by simpa using hcslash
  have hneq : dirTail rest ≠ rest.reverse.dropWhile (· == '/') := by
    intro heq
    rw [hc, hd] at heq
    have : c = d := (List.cons.injEq _ _ _ _ ▸ heq).1
    rw [hceq] at this
    rw [← this] at hdns
    simp at hdns
  have hshr := dropWhile_shrink (· != '/') (rest.reverse.dropWhile (· == '/'))
  rcases hshr with heq | hlt
  · exact absurd heq hneq
  · have h1 : (rest.reverse.dropWhile (· == '/')).length ≤ rest.length := by
      have := dropWhile_length_le (· == '/') rest.reverse
      rw [List.length_reverse] at this
      exact this
    unfold dirTail at hlen
    omega

theorem dirnameChars_abs_shrink (rest : List Char) (hne : rest ≠ []) :
    (dirnameChars ('/' :: rest)).length < ('/' :: rest).length ∧
    ∃ cs, dirnameChars ('/' :: rest) = '/' :: cs := by
  have hrest : 1 ≤ rest.length := by
    cases rest with
    | nil => exact absurd rfl hne
    | cons a as => simp
  simp only [dirnameChars, true_and, if_true]
  by_cases h0 : dirTail rest = []
  · rw [if_pos h0]
    exact ⟨by simp; omega, ⟨[], rfl⟩⟩
  · rw [if_neg h0]
    by_cases h1 : (dirTail rest).length = 1
    · rw [if_pos h1]
      have h2 := dirTail_two h0 h1
      exact ⟨by simp; omega, ⟨['/'], rfl⟩⟩
    · rw [if_neg h1]
      have hlenle := dirTail_len_le rest
      have hpos : 0 < (dirTail rest).length := List.length_pos.mpr h0
      constructor
      · rw [List.length_take]
        simp only [List.length_cons]
        omega
      · obtain ⟨m, hm⟩ : ∃ m, (dirTail rest).length = m + 1 :=
          ⟨(dirTail rest).length - 1, by omega⟩
        rw [hm, List.take_succ_cons]
        exact ⟨rest.take m, rfl⟩

theorem dirnameChars_rel {c : Char} (rest : List Char) (hc : ¬c = '/') :
    ∃ d ds, dirnameChars (c :: rest) = d :: ds ∧ ¬d = '/' := by
  simp only [dirnameChars]
  by_cases h0 : dirTail rest = []
  · rw [if_pos h0, if_neg hc]
    exact ⟨'.', [], rfl, by decide⟩
  · rw [if_neg h0]
    have hcond : ¬(c = '/' ∧ (dirTail rest).length = 1) := fun hc2 => hc hc2.1
    rw [if_neg hcond]
    have hpos : 0 < (dirTail rest).length := List.length_pos.mpr h0
    obtain ⟨m, hm⟩ : ∃ m, (dirTail rest).length = m + 1 :=
      ⟨(dirTail rest).length - 1, by omega⟩
    rw [hm, List.take_succ_cons]
    exact ⟨c, rest.take m, rfl, hc⟩

theorem strStartsWith_slash_cons {p : String} {c : Char} {cs : List Char}
    (hd : p.data = c :: cs) : strStartsWith p "/" = ('/' == c) := by
  have h1 : strStartsWith p "/" = leadMatch ['/'] p.data := rfl
  rw [h1, hd]
  simp [leadMatch]

theorem startsWith_slash_shape {p : String} (h : strStartsWith p "/" = true) :
    ∃ cs, p.data = '/' :: cs := by
  cases hd : p.data with
  | nil =>
    have h1 : strStartsWith p "/" = leadMatch ['/'] p.data := rfl
    rw [h1, hd] at h
    exact absurd h (by decide)
  | cons c cs =>
    rw [strStartsWith_slash_cons hd] at h
    have hce : c = '/' := (beq_iff_eq.mp h).symm
    exact ⟨cs, by rw [hce]⟩

theorem data_slash_startsWith {p : String} {cs : List Char}
    (hd : p.data = '/' :: cs) : strStartsWith p "/" = true := by
  rw [strStartsWith_slash_cons hd]
  decide

theorem dirname_abs {p : String} (habs : strStartsWith p "/" = true) (hne : p ≠ "/") :
    (dirname p).length < p.length ∧ strStartsWith (dirname p) "/" = true := by
  obtain ⟨cs, hd⟩ := startsWith_slash_shape habs
  have hcs : cs ≠ [] := by
    intro h0
    apply hne
    apply String.ext
    rw [hd, h0]
  have h := dirnameChars_abs_shrink cs hcs
  have hdata : (dirname p).data = dirnameChars ('/' :: cs) := by
    show dirnameChars p.data = dirnameChars ('/' :: cs)
    rw [hd]
  constructor
  · show (dirname p).data.length < p.data.length
    rw [hdata, hd]
    exact h.1
  · obtain ⟨ds, hds⟩ := h.2
    exact data_slash_startsWith (by rw [hdata, hds])

theorem dirname_root : dirname "/" = "/" := by decide

theorem dirname_abs_le {p : String} (habs : strStartsWith p "/" = true) :
    (dirname p).length ≤ p.length ∧ strStartsWith (dirname p) "/" = true := by
  by_cases hne : p = "/"
  · rw [hne, dirname_root]
    exact ⟨Nat.le_refl _, by decide⟩
  · have h := dirname_abs habs hne
    exact ⟨Nat.le_of_lt h.1, h.2⟩

theorem dirname_rel {p : String} (h : strStartsWith p "/" = false) :
    strStartsWith (dirname p) "/" = false ∧ dirname p ≠ "/" := by
  cases hd : p.data with
  | nil =>
    have hdn : (dirname p).data = ['.'] := by
      show dirnameChars p.data = ['.']
      rw [hd]
      rfl
    constructor
    · rw [strStartsWith_slash_cons hdn]
      decide
    · intro he
      rw [he] at hdn
      have hdn2 : ('/' :: ([] : List Char)) = '.' :: [] := hdn
      injection hdn2 with h1 h2
      exact absurd h1 (by decide)
  | cons c cs =>
    have hc : ¬c = '/' := by
      intro hceq
      rw [strStartsWith_slash_cons hd] at h
      rw [← hceq] at h
      simp at h
    obtain ⟨d, ds, hds, hdne⟩ := dirnameChars_rel cs hc
    have hdn : (dirname p).data = d :: ds := by
      show dirnameChars p.data = d :: ds
      rw [hd]
      exact hds
    constructor
    · rw [strStartsWith_slash_cons hdn]
      cases hx : ('/' == d) with
      | false => rfl
      | true =>
        have : '/' = d := beq_iff_eq.mp hx
        exact absurd this.symm hdne
    · intro he
      rw [he] at hdn
      have hdn2 : ('/' :: ([] : List Char)) = d :: ds := hdn
      injection hdn2 with h1 h2
      exact hdne h1.symm

theorem pkgWalk_total (fs : List String) :
    ∀ (fuel : Nat) (p : String), strStartsWith p "/" = true → p.length ≤ fuel →
      pkgWalk fs fuel p = WalkResult.noRoot ∨
      ∃ d, pkgWalk fs fuel p = WalkResult.found d ∧
        fs.contains (d ++ "/package.json") = true := by
  intro fuel
  induction fuel with
  | zero =>
    intro p habs hlen
    obtain ⟨cs, hd⟩ := startsWith_slash_shape habs
    have h1 : p.length = p.data.length := rfl
    rw [hd] at h1
    simp at h1
    omega
  | succ fuel ih =>
    intro p habs hlen
    simp only [pkgWalk]
    by_cases hroot : (p == "/") = true
    · rw [if_pos hroot]
      exact Or.inl rfl
    · rw [if_neg hroot]
      by_cases hpkg : fs.contains (p ++ "/package.json") = true
      · rw [if_pos hpkg]
        exact Or.inr ⟨p, rfl, hpkg⟩
      · rw [if_neg hpkg]
        have hne : p ≠ "/" := by
          intro he
          apply hroot
          rw [he]
          simp
        have h := dirname_abs habs hne
        exact ih (dirname p) h.2 (by omega)

/-- Claim C10: for every absolute POSIX input path on which `statSync`
succeeds, `findPackageRoot` terminates (fuel is never exhausted) and
returns either a directory that contains a `package.json` or null; each
`path.dirname` step on an absolute non-root path strictly shortens the path
while keeping it absolute (so the walk reaches `'/'`); and on a relative
path `dirname` never produces `'/'` (nor an absolute path), which is why
absoluteness is the required precondition for the walk to terminate. -/
theorem c10_findPackageRoot :
    ∀ (fs : List String) (stat : String → Option Bool) (p : String) (b : Bool),
      strStartsWith p "/" = true → stat p = some b →
      (∃ r, findPackageRoot fs stat p = some r ∧
        (r = WalkResult.noRoot ∨
          ∃ d, r = WalkResult.found d ∧ fs.contains (d ++ "/package.json") = true)) ∧
      (∀ q : String, strStartsWith q "/" = true → q ≠ "/" →
        (dirname q).length < q.length ∧ strStartsWith (dirname q) "/" = true) ∧
      (∀ q : String, strStartsWith q "/" = false →
        strStartsWith (dirname q) "/" = false ∧ dirname q ≠ "/") := by
  intro fs stat p b habs hstat
  refine ⟨?_, fun q hq hne => dirname_abs hq hne, fun q hq => dirname_rel hq⟩
  unfold findPackageRoot
  rw [hstat]
  cases b with
  | true =>
    have hstart := dirname_abs_le habs
    have h := pkgWalk_total fs (p.length + 1) (dirname p) hstart.2 (by omega)
    exact ⟨pkgWalk fs (p.length + 1) (dirname p), rfl, h⟩
  | false =>
    have h := pkgWalk_total fs (p.length + 1) p habs (by omega)
    exact ⟨pkgWalk fs (p.length + 1) p, rfl, h⟩

/-- Witness for claim C10: querying `/a/b.ts` (a file) over a filesystem
holding `/a/package.json` finds the package root `/a`. -/
theorem c10_findPackageRoot_witness :
    strStartsWith "/a/b.ts" "/" = true ∧
    ((fun q => if q == "/a/b.ts" then some true else none) "/a/b.ts"
      = some true) ∧
    (∃ r, findPackageRoot ["/a/package.json"]
        (fun q => if q == "/a/b.ts" then some true else none) "/a/b.ts" = some r ∧
      (r = WalkResult.noRoot ∨
        ∃ d, r = WalkResult.found d ∧
          (["/a/package.json"].contains (d ++ "/package.json")) = true)) := by
  refine ⟨by decide, by decide, ?_⟩
  exact (c10_findPackageRoot ["/a/package.json"]
    (fun q => if q == "/a/b.ts" then some true else none) "/a/b.ts" true
    (by decide) (by decide)).1

theorem trimLeadDash_cons_ne {c : Char} (h : ¬c = '-') (l : List Char) :
    trimLeadDash (c :: l) = c :: l := by
  unfold trimLeadDash
  split
  · rename_i heq
    injection heq with h1 h2
    exact absurd h1 h
  · rfl

theorem trimTrailDash_shape (c : Char) (cs : List Char) :
    trimTrailDash (c :: cs) = [] ∨ ∃ ds, trimTrailDash (c :: cs) = c :: ds := by
  unfold trimTrailDash
  split
  · cases cs with
    | nil => exact Or.inl rfl
    | cons d ds => exact Or.inr ⟨(d :: ds).dropLast, rfl⟩
  · exact Or.inr ⟨cs, rfl⟩

theorem replaceFirstRun_head :
    ∀ l : List Char, trimLeadDash (replaceFirstRun l) = [] ∨
      ∃ c cs, trimLeadDash (replaceFirstRun l) = c :: cs ∧ isAlnumI c = true := by
  intro l
  cases l with
  | nil => exact Or.inl rfl
  | cons c cs =>
    cases hc : isAlnumI c with
    | true =>
      right
      have hne : ¬c = '-' := by
        intro he
        rw [he] at hc
        exact absurd hc (by decide)
      refine ⟨c, replaceFirstRun cs, ?_, hc⟩
      rw [show replaceFirstRun (c :: cs) = c :: replaceFirstRun cs from by
        simp [replaceFirstRun, hc]]
      exact trimLeadDash_cons_ne hne _
    | false =>
      have hr : replaceFirstRun (c :: cs)
          = '-' :: (c :: cs).dropWhile (fun d => !isAlnumI d) := by
        simp [replaceFirstRun, hc]
      rw [hr]
      have ht : trimLeadDash ('-' :: (c :: cs).dropWhile (fun d => !isAlnumI d))
          = (c :: cs).dropWhile (fun d => !isAlnumI d) := rfl
      rw [ht]
      cases hx : (c :: cs).dropWhile (fun d => !isAlnumI d) with
      | nil => exact Or.inl rfl
      | cons d ds =>
        right
        have hd := dropWhile_head_not (fun e => !isAlnumI e) (c :: cs) d ds hx
        refine ⟨d, ds, rfl, ?_⟩
        cases hdd : isAlnumI d with
        | true => rfl
        | false =>
          have hd2 : (!isAlnumI d) = false := hd
          rw [hdd] at hd2
          simp at hd2

theorem baseWorkflowsBundleId_head (wp : String) :
    (baseWorkflowsBundleId wp).data = [] ∨
    ∃ c cs, (baseWorkflowsBundleId wp).data = c :: cs ∧ isAlnumI c = true := by
  have hdata : (baseWorkflowsBundleId wp).data
      = trimTrailDash (trimLeadDash (replaceFirstRun (basename wp).data)) := rfl
  rw [hdata]
  rcases replaceFirstRun_head (basename wp).data with h | ⟨c, cs, heq, hal⟩
  · left
    rw [h]
    rfl
  · rw [heq]
    rcases trimTrailDash_shape c cs with h2 | ⟨ds, h2⟩
    · exact Or.inl h2
    · exact Or.inr ⟨c, ds, h2, hal⟩

/-- Every identifier the rewriter can allocate (the base id or any suffixed
candidate) starts with an alphanumeric character or, for an empty base,
with a dash — never with an underscore. In particular it is never the
special key `__proto__`, assignment to which a JS object treats as setting
the prototype rather than creating an entry; this justifies modelling the
table assignment of source line 76 as a plain own-key update. -/
theorem rewrittenId_ne_proto (wp : String) (k : Nat) :
    candId (baseWorkflowsBundleId wp) k ≠ "__proto__" := by
  intro h
  have hd := congrArg String.data h
  have hh := congrArg List.head? hd
  have hrhs : ("__proto__" : String).data.head? = some '_' := rfl
  rw [hrhs] at hh
  rcases baseWorkflowsBundleId_head wp with hnil | ⟨c, cs, hcs, hal⟩
  · cases k with
    | zero =>
      have hz : (candId (baseWorkflowsBundleId wp) 0).data.head? = none := by
        show (baseWorkflowsBundleId wp).data.head? = none
        rw [hnil]
        rfl
      rw [hz] at hh
      cases hh
    | succ k =>
      have hz : (candId (baseWorkflowsBundleId wp) (k + 1)).data.head? = some '-' := by
        rw [candId_data_succ, hnil]
        rfl
      rw [hz] at hh
      have hc2 : '-' = '_' := Option.some_inj.mp hh
      exact absurd hc2 (by decide)
  · cases k with
    | zero =>
      have hz : (candId (baseWorkflowsBundleId wp) 0).data.head? = some c := by
        show (baseWorkflowsBundleId wp).data.head? = some c
        rw [hcs]
        rfl
      rw [hz] at hh
      have hc2 : c = '_' := Option.some_inj.mp hh
      rw [hc2] at hal
      exact absurd hal (by decide)
    | succ k =>
      have hz : (candId (baseWorkflowsBundleId wp) (k + 1)).data.head? = some c := by
        rw [candId_data_succ, hcs]
        rfl
      rw [hz] at hh
      have hc2 : c = '_' := Option.some_inj.mp hh
      rw [hc2] at hal
      exact absurd hal (by decide)

end TemporalCdk
